import Mathlib

/-!
Shallow embedding of the dads-book-club-voting program (`src/main.py`) and
verification of the specification's claims about it.

The program is a linear pipeline: load CSV preference rows, enumerate all
non-empty subsets of the set of mentioned book titles, score each subset
against the preference records, filter subsets lacking quorum, sort the
survivors, and report.  Python integers/fractions are modelled exactly with
`Nat`/`ℚ`; the float square root in `root_mean_square` is modelled by
`Real.sqrt` over the exact mean square.  Fallible code (list indexing,
`raise ValueError`, division by zero) is modelled with `Option`.
-/

namespace BookClub

/-- Source constant `_MIN_GROUP_SIZE = 3`: fewest people allowed in a group. -/
def MIN_GROUP_SIZE : Nat := 3

/-- Source constant `_FIRST_NAME_COLUMN_IDX = 3`. -/
def FIRST_NAME_COLUMN_IDX : Nat := 3

/-- Source constant `_LAST_NAME_COLUMN_IDX = 4`. -/
def LAST_NAME_COLUMN_IDX : Nat := 4

/-- Source constant `_BOOK_PREFS_COLUMN_IDX = 6`. -/
def BOOK_PREFS_COLUMN_IDX : Nat := 6

/-- Embedding of Python `str.strip()`: drop leading and trailing whitespace
characters.  Stated over the character list of the string so that it
evaluates inside the kernel. -/
def strip (s : String) : String :=
  String.mk (((s.data.dropWhile Char.isWhitespace).reverse.dropWhile
    Char.isWhitespace).reverse)

/-- Embedding of Python `str.split(",")`: split on every comma, keeping
empty tokens (and producing one empty token for the empty string). -/
def splitCommas (s : String) : List String :=
  (s.data.splitOn ',').map String.mk

/-- Embedding of the dataclass `UserPreference`. -/
structure UserPreference where
  first_name : String
  last_name : String
  books_by_preference : List String
  deriving DecidableEq

/-- Embedding of `UserPreference.from_csv_row`: `row[i]` is fallible (Python
raises `IndexError` out of range), so the row accesses are modelled with
`List.get?`.  The preference cell is split on commas and every token is
trimmed; empty tokens are kept. -/
def UserPreference.from_csv_row (row : List String) : Option UserPreference :=
  match row.get? BOOK_PREFS_COLUMN_IDX, row.get? FIRST_NAME_COLUMN_IDX,
      row.get? LAST_NAME_COLUMN_IDX with
  | some cell, some fn, some ln =>
      some ⟨fn, ln, (splitCommas cell).map strip⟩
  | _, _, _ => none

/-- The loop of `UserPreference.get_rank_of_book`: `rank` is the running
`enumerate` counter; the first list entry equal to `book` yields
`rank + 1`. -/
def rankFrom (book : String) : Nat → List String → Option Nat
  | _, [] => none
  | rank, b :: bs => if b = book then some (rank + 1) else rankFrom book (rank + 1) bs

/-- Embedding of `UserPreference.get_rank_of_book`; `none` models the
`ValueError` raised when the book is absent. -/
def UserPreference.get_rank_of_book (u : UserPreference) (book : String) : Option Nat :=
  rankFrom book 0 u.books_by_preference

/-- The list comprehension inside `_load_csv`, row by row: any failing row
aborts the whole load, as an uncaught `IndexError` would. -/
def loadRows : List (List String) → Option (List UserPreference)
  | [] => some []
  | row :: rest =>
      match UserPreference.from_csv_row row, loadRows rest with
      | some u, some us => some (u :: us)
      | _, _ => none

/-- Embedding of `_load_csv` applied to the already-parsed CSV rows: the
header row is discarded (`next(reader)`, which fails on an empty file), and
every remaining row is turned into a record. -/
def load_csv : List (List String) → Option (List UserPreference)
  | [] => none
  | _header :: data => loadRows data

example :
    UserPreference.from_csv_row ["a", "b", "c", "Tyler", "Auer", "x", " A, B ,C"]
      = some ⟨"Tyler", "Auer", ["A", "B", "C"]⟩ := by rfl

example :
    (UserPreference.get_rank_of_book ⟨"t", "a", ["A", "B", "C"]⟩ ("B")) = some 2 := by rfl

/-- The inner loop of `ComboSummary.from_books_and_user_prefs`: scan a
record's ranked list in preference order and return the first book that is
a member of the combo (`break` after the first hit), or `none` when the
list has no book of the combo. -/
def firstComboBook (books : List String) : List String → Option String
  | [] => none
  | b :: bs => if b ∈ books then some b else firstComboBook books bs

/-- Appending one supporter to the entry of book `b` in the insertion-order
association list that models the Python dict `book_to_user_pref`. -/
def appendSupporter (m : List (String × List UserPreference)) (b : String)
    (u : UserPreference) : List (String × List UserPreference) :=
  m.map fun p => if p.1 = b then (p.1, p.2 ++ [u]) else p

/-- The outer loop of `ComboSummary.from_books_and_user_prefs` over the
records, threading the dict. -/
def assignSupporters (books : List String) :
    List (String × List UserPreference) → List UserPreference →
      List (String × List UserPreference)
  | m, [] => m
  | m, u :: us =>
      match firstComboBook books u.books_by_preference with
      | some b => assignSupporters books (appendSupporter m b u) us
      | none => assignSupporters books m us

/-- The dict `book_to_user_pref` built by
`ComboSummary.from_books_and_user_prefs`: one (initially empty) entry per
combo book in combo iteration order, then every record assigned to its
first matching book. -/
def supporterMap (books : List String) (user_prefs : List UserPreference) :
    List (String × List UserPreference) :=
  assignSupporters books (books.map fun b => (b, [])) user_prefs

/-- Ranks of all supporters of one book, in list order; any record not
listing the book makes the whole computation fail (the `ValueError` of
`get_rank_of_book`). -/
def ranksOfUsers (book : String) : List UserPreference → Option (List Nat)
  | [] => some []
  | u :: us =>
      match u.get_rank_of_book book, ranksOfUsers book us with
      | some r, some rs => some (r :: rs)
      | _, _ => none

/-- The nested loop of `ComboSummary.__post_init__`: the flattened list of
`user_score` values in dict iteration order. -/
def comboRanks : List (String × List UserPreference) → Option (List Nat)
  | [] => some []
  | (b, us) :: rest =>
      match ranksOfUsers b us, comboRanks rest with
      | some rs, some rest' => some (rs ++ rest')
      | _, _ => none

/-- Embedding of the dataclass `ComboSummary` after `__post_init__` ran.
`mean_square` holds the exact value `squared_running_sum / score_count`;
the float `root_mean_square = mean_square ** 0.5` of the source is its
square root, see `ComboSummary.root_mean_square`. -/
structure ComboSummary where
  books : List String
  book_to_user_pref : List (String × List UserPreference)
  avg_score : ℚ
  harmonic_mean : ℚ
  mean_square : ℚ
  deriving DecidableEq

/-- The real-valued root mean square `(squared_running_sum / score_count) ** 0.5`. -/
noncomputable def ComboSummary.root_mean_square (s : ComboSummary) : ℝ :=
  Real.sqrt (s.mean_square : ℝ)

/-- Embedding of `ComboSummary.__post_init__`: compute the three running
sums over every (book, supporter) pair; `none` models the uncaught
`ValueError` of a failing rank lookup as well as the `ZeroDivisionError`
when `score_count = 0`. -/
def post_init (books : List String) (m : List (String × List UserPreference)) :
    Option ComboSummary :=
  match comboRanks m with
  | none => none
  | some ranks =>
      if ranks.length = 0 then none
      else some
        { books := books
          book_to_user_pref := m
          avg_score :=
            (ranks.map fun r : Nat => (r : ℚ)).sum / (ranks.length : ℚ)
          harmonic_mean :=
            (ranks.length : ℚ) / (ranks.map fun r : Nat => (1 : ℚ) / (r : ℚ)).sum
          mean_square :=
            (ranks.map fun r : Nat => ((r : ℚ)) ^ 2).sum / (ranks.length : ℚ) }

/-- Embedding of `ComboSummary.from_books_and_user_prefs` followed by the
implicit `__post_init__` of the constructed dataclass. -/
def ComboSummary.from_books_and_user_prefs (books : List String)
    (user_prefs : List UserPreference) : Option ComboSummary :=
  post_init books (supporterMap books user_prefs)

/-- Embedding of `_get_all_book_titles`: the union, as a set, of all ranked
lists.  The Python `set` is modelled as a duplicate-free list. -/
def get_all_book_titles (user_prefs : List UserPreference) : List String :=
  (user_prefs.flatMap fun u => u.books_by_preference).dedup

/-- Embedding of `_combinations_for_all_book_counts`:
`itertools.combinations(books, k)` enumerates the length-`k` subsequences
of its input sequence, i.e. `List.sublistsLen k books`; the loop collects
them for every `k` from 1 to `len(books)`. -/
def combinations_for_all_book_counts (books : List String) : List (List String) :=
  (List.range books.length).flatMap fun i => List.sublistsLen (i + 1) books

/-- Whether every book of a combo has at least `MIN_GROUP_SIZE` supporters
(the `all(...)` condition of `filter_invalid_summaries`). -/
def summaryValid (s : ComboSummary) : Bool :=
  s.book_to_user_pref.all fun p => MIN_GROUP_SIZE ≤ p.2.length

/-- Embedding of `filter_invalid_summaries`.  The second component models
the printed diagnostic `filter_count`. -/
def filter_invalid_summaries (combo_summaries : List ComboSummary) :
    List ComboSummary × Nat :=
  combo_summaries.foldl
    (fun acc s => if summaryValid s then (acc.1 ++ [s], acc.2) else (acc.1, acc.2 + 1))
    ([], 0)

/-- The sort key comparison of `run`: Python compares the tuples
`(x.root_mean_square, len(x.books))` lexicographically.  Since the real
square root is strictly monotone on the nonnegative mean squares, the
comparison is performed on the exact mean squares (the equivalence with
the square-root key is proved in the ranking theorem). -/
def summaryLE (s t : ComboSummary) : Prop :=
  s.mean_square < t.mean_square ∨
    (s.mean_square = t.mean_square ∧ s.books.length ≤ t.books.length)

instance (s t : ComboSummary) : Decidable (summaryLE s t) := by
  unfold summaryLE; infer_instance

instance : IsTotal ComboSummary summaryLE := by
  constructor
  intro a b
  unfold summaryLE
  rcases lt_trichotomy a.mean_square b.mean_square with h | h | h
  · exact Or.inl (Or.inl h)
  · rcases Nat.le_total a.books.length b.books.length with h' | h'
    · exact Or.inl (Or.inr ⟨h, h'⟩)
    · exact Or.inr (Or.inr ⟨h.symm, h'⟩)
  · exact Or.inr (Or.inl h)

instance : IsTrans ComboSummary summaryLE := by
  constructor
  intro a b c hab hbc
  unfold summaryLE at *
  rcases hab with hab | ⟨hab, hab'⟩
  · rcases hbc with hbc | ⟨hbc, _⟩
    · exact Or.inl (hab.trans hbc)
    · exact Or.inl (hbc ▸ hab)
  · rcases hbc with hbc | ⟨hbc, hbc'⟩
    · exact Or.inl (hab ▸ hbc)
    · exact Or.inr ⟨hab.trans hbc, hab'.trans hbc'⟩

/-- Embedding of the `sorted(...)` call of `run`: Python's `sorted` is a
stable sort with respect to the key comparison, modelled by the stable
`List.insertionSort`. -/
def rankSummaries (combo_summaries : List ComboSummary) : List ComboSummary :=
  combo_summaries.insertionSort summaryLE

/-- The flattened list of (book, supporting record) pairs of a supporter
map, in iteration order. -/
def supportPairs (m : List (String × List UserPreference)) :
    List (String × UserPreference) :=
  m.flatMap fun p => p.2.map fun u => (p.1, u)

/-- The 1-based position of the pair's book in the pair's record's ranked
list (the `rank(r, b)` of the specification). -/
def pairRank (p : String × UserPreference) : Nat :=
  List.indexOf p.1 p.2.books_by_preference + 1

/-! ### Helper lemmas about the rank lookup -/

theorem rankFrom_eq_none (book : String) :
    ∀ (l : List String) (k : Nat), book ∉ l → rankFrom book k l = none
  | [], _, _ => rfl
  | b :: bs, k, h => by
      have hb : b ≠ book := fun hb => h (hb ▸ List.mem_cons_self b bs)
      have hm : book ∉ bs := fun hm => h (List.mem_cons_of_mem _ hm)
      simp [rankFrom, hb, rankFrom_eq_none book bs (k + 1) hm]

theorem rankFrom_of_mem (book : String) :
    ∀ (l : List String) (k : Nat), book ∈ l →
      rankFrom book k l = some (k + List.indexOf book l + 1)
  | [], _, h => absurd h (List.not_mem_nil _)
  | b :: bs, k, h => by
      by_cases hb : b = book
      · subst hb
        simp [rankFrom, List.indexOf_cons_self]
      · have hm : book ∈ bs := by
          rcases List.mem_cons.mp h with h' | h'
          · exact absurd h'.symm hb
          · exact h'
        rw [rankFrom, if_neg hb, rankFrom_of_mem book bs (k + 1) hm,
          List.indexOf_cons_ne bs hb]
        congr 1
        omega

theorem rankFrom_mem (book : String) :
    ∀ (l : List String) (k r : Nat), rankFrom book k l = some r → book ∈ l
  | [], _, _, h => by simp [rankFrom] at h
  | b :: bs, k, r, h => by
      by_cases hb : b = book
      · exact hb ▸ List.mem_cons_self b bs
      · rw [rankFrom, if_neg hb] at h
        exact List.mem_cons_of_mem _ (rankFrom_mem book bs (k + 1) r h)

theorem rankFrom_nodup_get (book : String) :
    ∀ (l : List String) (k j : Nat) (hj : j < l.length), l.Nodup →
      l.get ⟨j, hj⟩ = book → rankFrom book k l = some (k + j + 1)
  | [], _, j, hj, _, _ => absurd hj (by simp)
  | b :: bs, k, 0, _, _, hget => by
      simp only [List.get] at hget
      simp [rankFrom, hget]
  | b :: bs, k, j + 1, hj, hnd, hget => by
      have hj' : j < bs.length := by simpa using hj
      have hget' : bs.get ⟨j, hj'⟩ = book := hget
      have hmem : book ∈ bs := hget' ▸ bs.get_mem j hj'
      have hb : b ≠ book := fun hb => (List.nodup_cons.mp hnd).1 (hb ▸ hmem)
      rw [rankFrom, if_neg hb,
        rankFrom_nodup_get book bs (k + 1) j hj' (List.nodup_cons.mp hnd).2 hget']
      congr 1
      omega

/-! ### Helper lemmas about the supporter assignment -/

theorem firstComboBook_eq_find (books : List String) :
    ∀ l : List String,
      firstComboBook books l = l.find? fun x => decide (x ∈ books)
  | [] => rfl
  | c :: cs => by
      by_cases hc : c ∈ books <;>
        simp [firstComboBook, hc, firstComboBook_eq_find books cs]

theorem firstComboBook_eq_none_iff (books l : List String) :
    firstComboBook books l = none ↔ ∀ x ∈ l, x ∉ books := by
  rw [firstComboBook_eq_find]
  simp [List.find?_eq_none]

theorem firstComboBook_eq_some_iff (books l : List String) (b : String) :
    firstComboBook books l = some b ↔
      b ∈ books ∧ ∃ t₁ t₂, l = t₁ ++ b :: t₂ ∧ ∀ x ∈ t₁, x ∉ books := by
  rw [firstComboBook_eq_find]
  rw [List.find?_eq_some]
  simp

theorem firstComboBook_mem (books l : List String) (b : String)
    (h : firstComboBook books l = some b) : b ∈ books ∧ b ∈ l := by
  rcases (firstComboBook_eq_some_iff books l b).mp h with ⟨hb, t₁, t₂, hl, -⟩
  exact ⟨hb, hl ▸ List.mem_append_right _ (List.mem_cons_self _ _)⟩

theorem appendSupporter_map (l : List String) (f : String → List UserPreference)
    (b₀ : String) (u : UserPreference) :
    appendSupporter (l.map fun b => (b, f b)) b₀ u
      = l.map fun b => (b, if b = b₀ then f b ++ [u] else f b) := by
  simp only [appendSupporter, List.map_map]
  apply List.map_congr_left
  intro b _
  by_cases hb : b = b₀ <;> simp [hb]

theorem assignSupporters_eq (books : List String) :
    ∀ (ups : List UserPreference) (f : String → List UserPreference),
      assignSupporters books (books.map fun b => (b, f b)) ups
        = books.map fun b =>
            (b, f b ++ ups.filter fun u =>
              decide (firstComboBook books u.books_by_preference = some b))
  | [], f => by simp [assignSupporters]
  | u :: us, f => by
      cases hfc : firstComboBook books u.books_by_preference with
      | none =>
          simp only [assignSupporters, hfc]
          rw [assignSupporters_eq books us f]
          apply List.map_congr_left
          intro b _
          simp [List.filter_cons, hfc]
      | some b₀ =>
          simp only [assignSupporters, hfc]
          rw [appendSupporter_map,
            assignSupporters_eq books us fun b => if b = b₀ then f b ++ [u] else f b]
          apply List.map_congr_left
          intro b _
          by_cases hb : b = b₀
          · subst hb
            simp [List.filter_cons, hfc]
          · have : ¬ (b₀ = b) := fun h => hb h.symm
            simp [List.filter_cons, hfc, this, hb]

theorem supporterMap_eq (books : List String) (ups : List UserPreference) :
    supporterMap books ups
      = books.map fun b =>
          (b, ups.filter fun u =>
            decide (firstComboBook books u.books_by_preference = some b)) := by
  have h := assignSupporters_eq books ups fun _ => []
  simpa [supporterMap] using h

/-! ### Helper lemmas about the statistics loop -/

theorem ranksOfUsers_eq_some (b : String) :
    ∀ (us : List UserPreference) (rs : List Nat), ranksOfUsers b us = some rs →
      (∀ u ∈ us, b ∈ u.books_by_preference) ∧
        rs = us.map fun u => List.indexOf b u.books_by_preference + 1
  | [], rs, h => by
      simp only [ranksOfUsers, Option.some.injEq] at h
      exact ⟨by simp, h.symm⟩
  | u :: us, rs, h => by
      rw [ranksOfUsers] at h
      cases h1 : u.get_rank_of_book b with
      | none => rw [h1] at h; cases h
      | some r =>
          rw [h1] at h
          cases h2 : ranksOfUsers b us with
          | none => rw [h2] at h; cases h
          | some rs' =>
              rw [h2] at h
              simp only [Option.some.injEq] at h
              have hmem : b ∈ u.books_by_preference :=
                rankFrom_mem b u.books_by_preference 0 r h1
              have hr : r = List.indexOf b u.books_by_preference + 1 := by
                have h3 := rankFrom_of_mem b u.books_by_preference 0 hmem
                rw [UserPreference.get_rank_of_book, h3] at h1
                injection h1 with h4
                omega

              rcases ranksOfUsers_eq_some b us rs' h2 with ⟨hall, hrs'⟩
              refine ⟨?_, ?_⟩
              · intro v hv
                rcases List.mem_cons.mp hv with hv | hv
                · exact hv ▸ hmem
                · exact hall v hv
              · rw [← h, hrs', List.map_cons, hr]

theorem ranksOfUsers_of_mem (b : String) :
    ∀ us : List UserPreference, (∀ u ∈ us, b ∈ u.books_by_preference) →
      ranksOfUsers b us
        = some (us.map fun u => List.indexOf b u.books_by_preference + 1)
  | [], _ => rfl
  | u :: us, h => by
      have h1 : u.get_rank_of_book b
          = some (List.indexOf b u.books_by_preference + 1) := by
        have := rankFrom_of_mem b u.books_by_preference 0 (h u (List.mem_cons_self _ _))
        rw [UserPreference.get_rank_of_book, this]
        norm_num
      rw [ranksOfUsers, h1,
        ranksOfUsers_of_mem b us fun v hv => h v (List.mem_cons_of_mem _ hv)]
      rfl

theorem comboRanks_eq_some :
    ∀ (m : List (String × List UserPreference)) (ranks : List Nat),
      comboRanks m = some ranks →
        (∀ p ∈ m, ∀ u ∈ p.2, p.1 ∈ u.books_by_preference) ∧
          ranks = (supportPairs m).map pairRank
  | [], ranks, h => by
      simp only [comboRanks, Option.some.injEq] at h
      exact ⟨by simp, by simp [supportPairs, ← h]⟩
  | (b, us) :: rest, ranks, h => by
      rw [comboRanks] at h
      cases h1 : ranksOfUsers b us with
      | none => rw [h1] at h; cases h
      | some rs =>
          rw [h1] at h
          cases h2 : comboRanks rest with
          | none => rw [h2] at h; cases h
          | some rest' =>
              rw [h2] at h
              simp only [Option.some.injEq] at h
              rcases ranksOfUsers_eq_some b us rs h1 with ⟨hall, hrs⟩
              rcases comboRanks_eq_some rest rest' h2 with ⟨hall', hrest⟩
              constructor
              · intro p hp u hu
                rcases List.mem_cons.mp hp with hp | hp
                · subst hp; exact hall u hu
                · exact hall' p hp u hu
              · rw [← h, hrs, hrest]
                simp [supportPairs, pairRank, List.map_map, Function.comp]

theorem comboRanks_of_mem :
    ∀ m : List (String × List UserPreference),
      (∀ p ∈ m, ∀ u ∈ p.2, p.1 ∈ u.books_by_preference) →
        comboRanks m = some ((supportPairs m).map pairRank)
  | [], _ => by simp [comboRanks, supportPairs]
  | (b, us) :: rest, h => by
      rw [comboRanks,
        ranksOfUsers_of_mem b us fun u hu => h (b, us) (List.mem_cons_self _ _) u hu,
        comboRanks_of_mem rest fun p hp u hu => h p (List.mem_cons_of_mem _ hp) u hu]
      simp [supportPairs, pairRank, List.map_map, Function.comp]

theorem comboRanks_all_empty :
    ∀ l : List String,
      comboRanks (l.map fun b => (b, ([] : List UserPreference))) = some []
  | [] => rfl
  | b :: bs => by
      simp [comboRanks, ranksOfUsers, comboRanks_all_empty bs]

/-- A concrete record used by the theorem witnesses. -/
def demoUser : UserPreference := ⟨"Tyler", "A", ["A", "B"]⟩

/-! ### Claim theorems -/

/-- C1: the Combo Scorer assigns each Preference Record as a supporter of
exactly the first book of its ranked list that is a member of the combo, so
each record supports at most one book of the combo, and a record whose
ranked list contains no combo book supports none. -/
theorem combo_scorer_assigns_first_matching_book (books : List String)
    (ups : List UserPreference) (b₁ b₂ : String)
    (l₁ l₂ : List UserPreference) (u : UserPreference)
    (h₁ : (b₁, l₁) ∈ supporterMap books ups)
    (h₂ : (b₂, l₂) ∈ supporterMap books ups) :
    (u ∈ l₁ ↔ u ∈ ups ∧ firstComboBook books u.books_by_preference = some b₁)
    ∧ (u ∈ l₁ → u ∈ l₂ → b₁ = b₂)
    ∧ (firstComboBook books u.books_by_preference = none → u ∉ l₁)
    ∧ (firstComboBook books u.books_by_preference = some b₁ →
        b₁ ∈ books ∧ ∃ t₁ t₂, u.books_by_preference = t₁ ++ b₁ :: t₂ ∧
          ∀ x ∈ t₁, x ∉ books) := by
  rw [supporterMap_eq] at h₁ h₂
  rcases List.mem_map.mp h₁ with ⟨c₁, -, hc₁⟩
  rcases List.mem_map.mp h₂ with ⟨c₂, -, hc₂⟩
  cases hc₁
  cases hc₂
  refine ⟨by simp [List.mem_filter], ?_, ?_, ?_⟩
  · intro hu₁ hu₂
    have e₁ := (List.mem_filter.mp hu₁).2
    have e₂ := (List.mem_filter.mp hu₂).2
    simp only [decide_eq_true_eq] at e₁ e₂
    rw [e₁] at e₂
    exact Option.some.inj e₂
  · intro hnone hu
    have e₁ := (List.mem_filter.mp hu).2
    simp only [decide_eq_true_eq] at e₁
    rw [hnone] at e₁
    cases e₁
  · intro hfc
    exact (firstComboBook_eq_some_iff books u.books_by_preference _).mp hfc

theorem combo_scorer_assigns_first_matching_book_witness :
    (("A", [demoUser]) ∈ supporterMap ["B", "A"] [demoUser])
    ∧ (("B", ([] : List UserPreference)) ∈ supporterMap ["B", "A"] [demoUser])
    ∧ ((demoUser ∈ [demoUser] ↔ demoUser ∈ [demoUser] ∧
          firstComboBook ["B", "A"] demoUser.books_by_preference = some ("A"))
      ∧ (demoUser ∈ [demoUser] → demoUser ∈ ([] : List UserPreference) → "A" = "B")
      ∧ (firstComboBook ["B", "A"] demoUser.books_by_preference = none →
          demoUser ∉ [demoUser])
      ∧ (firstComboBook ["B", "A"] demoUser.books_by_preference = some ("A") →
          "A" ∈ ["B", "A"] ∧ ∃ t₁ t₂,
            demoUser.books_by_preference = t₁ ++ "A" :: t₂ ∧
              ∀ x ∈ t₁, x ∉ ["B", "A"])) :=
  ⟨by decide, by decide,
    combo_scorer_assigns_first_matching_book ["B", "A"] [demoUser] "A" "B"
      [demoUser] [] demoUser (by decide) (by decide)⟩

/-- C6: for a record whose ranked list has no duplicates, the rank lookup
returns the 1-based index of the looked-up book, and fails (`none`, the
`ValueError`) for a book absent from the list. -/
theorem rank_lookup_spec (u : UserPreference) (b : String)
    (hnd : u.books_by_preference.Nodup) :
    (∀ (j : Nat) (hj : j < u.books_by_preference.length),
        u.books_by_preference.get ⟨j, hj⟩ = b →
          u.get_rank_of_book b = some (j + 1))
    ∧ (b ∉ u.books_by_preference → u.get_rank_of_book b = none) := by
  constructor
  · intro j hj hget
    have h0 := rankFrom_nodup_get b u.books_by_preference 0 j hj hnd hget
    have : u.get_rank_of_book b = some (0 + j + 1) := h0
    rw [this]
    congr 1
    omega
  · intro hb
    exact rankFrom_eq_none b _ 0 hb

theorem rank_lookup_spec_witness :
    (demoUser.books_by_preference.Nodup)
    ∧ ((∀ (j : Nat) (hj : j < demoUser.books_by_preference.length),
          demoUser.books_by_preference.get ⟨j, hj⟩ = "B" →
            demoUser.get_rank_of_book ("B") = some (j + 1))
      ∧ ("B" ∉ demoUser.books_by_preference →
          demoUser.get_rank_of_book ("B") = none)) :=
  ⟨by decide, rank_lookup_spec demoUser ("B") (by decide)⟩

/-- C7: building a Combo Summary for a combo with at least one book, none
of whose books appears in any record's ranked list, fails (the
`ZeroDivisionError` for `score_count = 0`), modelled by `none` rather than
a coerced value. -/
theorem statistics_fail_on_zero_supporters (books : List String)
    (ups : List UserPreference) (_hb : books ≠ [])
    (h : ∀ u ∈ ups, ∀ b ∈ u.books_by_preference, b ∉ books) :
    ComboSummary.from_books_and_user_prefs books ups = none := by
  have hmap : supporterMap books ups
      = books.map fun b => (b, ([] : List UserPreference)) := by
    rw [supporterMap_eq]
    apply List.map_congr_left
    intro b _
    have : ups.filter (fun u =>
        decide (firstComboBook books u.books_by_preference = some b)) = [] := by
      rw [List.filter_eq_nil_iff]
      intro u hu
      have hnone : firstComboBook books u.books_by_preference = none :=
        (firstComboBook_eq_none_iff _ _).mpr fun x hx => h u hu x hx
      simp [hnone]
    rw [this]
  rw [ComboSummary.from_books_and_user_prefs, hmap]
  simp [post_init, comboRanks_all_empty books]

theorem statistics_fail_on_zero_supporters_witness :
    ((["C"] : List String) ≠ [])
    ∧ (∀ u ∈ [demoUser], ∀ b ∈ u.books_by_preference, b ∉ (["C"] : List String))
    ∧ ComboSummary.from_books_and_user_prefs ["C"] [demoUser] = none :=
  ⟨by decide, by decide,
    statistics_fail_on_zero_supporters ["C"] [demoUser] (by decide) (by decide)⟩

/-- The summary built in the statistics witness: one combo book `"A"`,
supported by `demoUser` at rank 1, so all three statistics are 1. -/
def demoSummary : ComboSummary := ⟨["A"], [("A", [demoUser])], 1, 1, 1⟩

/-- C2: the statistics of a constructed Combo Summary are the arithmetic
mean, harmonic mean, and quadratic mean of the 1-based ranks, taken over
the flattened list of (book, supporting record) pairs of the whole combo. -/
theorem combo_statistics_formulas (books : List String)
    (ups : List UserPreference) (s : ComboSummary)
    (h : ComboSummary.from_books_and_user_prefs books ups = some s) :
    0 < (supportPairs s.book_to_user_pref).length
    ∧ s.avg_score =
        ((supportPairs s.book_to_user_pref).map fun p => (pairRank p : ℚ)).sum
          / ((supportPairs s.book_to_user_pref).length : ℚ)
    ∧ s.harmonic_mean =
        ((supportPairs s.book_to_user_pref).length : ℚ)
          / ((supportPairs s.book_to_user_pref).map fun p => 1 / (pairRank p : ℚ)).sum
    ∧ s.root_mean_square =
        Real.sqrt ((((supportPairs s.book_to_user_pref).map
          fun p => ((pairRank p : ℚ)) ^ 2).sum
            / ((supportPairs s.book_to_user_pref).length : ℚ) : ℚ)) := by
  cases hcr : comboRanks (supporterMap books ups) with
  | none =>
      simp only [ComboSummary.from_books_and_user_prefs, post_init, hcr] at h
      exact Option.noConfusion h
  | some ranks =>
      simp only [ComboSummary.from_books_and_user_prefs, post_init, hcr] at h
      by_cases hlen : ranks.length = 0
      · rw [if_pos hlen] at h
        exact Option.noConfusion h
      · rw [if_neg hlen] at h
        injection h with h
        subst h
        obtain ⟨-, hranks⟩ := comboRanks_eq_some _ ranks hcr
        refine ⟨?_, ?_, ?_, ?_⟩
        · show 0 < (supportPairs (supporterMap books ups)).length
          rw [hranks, List.length_map] at hlen
          omega
        · show (ranks.map fun r : Nat => (r : ℚ)).sum / (ranks.length : ℚ) = _
          rw [hranks, List.map_map, List.length_map]
          rfl
        · show (ranks.length : ℚ)
              / (ranks.map fun r : Nat => (1 : ℚ) / (r : ℚ)).sum = _
          rw [hranks, List.map_map, List.length_map]
          rfl
        · show Real.sqrt
              (((ranks.map fun r : Nat => ((r : ℚ)) ^ 2).sum
                / (ranks.length : ℚ) : ℚ)) = _
          rw [hranks, List.map_map, List.length_map]
          rfl

theorem demo_from_books :
    ComboSummary.from_books_and_user_prefs ["A"] [demoUser] = some demoSummary := by
  rw [ComboSummary.from_books_and_user_prefs,
    show supporterMap ["A"] [demoUser] = [("A", [demoUser])] from by decide]
  simp only [post_init,
    show comboRanks [("A", [demoUser])] = some [1] from by decide]
  norm_num [demoSummary]

theorem combo_statistics_formulas_witness :
    ComboSummary.from_books_and_user_prefs ["A"] [demoUser] = some demoSummary
    ∧ (0 < (supportPairs demoSummary.book_to_user_pref).length
      ∧ demoSummary.avg_score =
          ((supportPairs demoSummary.book_to_user_pref).map
            fun p => (pairRank p : ℚ)).sum
            / ((supportPairs demoSummary.book_to_user_pref).length : ℚ)
      ∧ demoSummary.harmonic_mean =
          ((supportPairs demoSummary.book_to_user_pref).length : ℚ)
            / ((supportPairs demoSummary.book_to_user_pref).map
              fun p => 1 / (pairRank p : ℚ)).sum
      ∧ demoSummary.root_mean_square =
          Real.sqrt ((((supportPairs demoSummary.book_to_user_pref).map
            fun p => ((pairRank p : ℚ)) ^ 2).sum
              / ((supportPairs demoSummary.book_to_user_pref).length : ℚ) : ℚ))) :=
  ⟨demo_from_books,
    combo_statistics_formulas ["A"] [demoUser] demoSummary demo_from_books⟩

/-- The record the Loader produces from a row whose columns are all in
range. -/
def rowRecord (row : List String) : UserPreference :=
  ⟨row.getD FIRST_NAME_COLUMN_IDX (""), row.getD LAST_NAME_COLUMN_IDX (""),
    (splitCommas (row.getD BOOK_PREFS_COLUMN_IDX (""))).map strip⟩

theorem get?_eq_some_getD {α : Type} (l : List α) (i : Nat) (d : α)
    (h : i < l.length) : l.get? i = some (l.getD i d) := by
  rw [List.getD_eq_get?]
  cases hg : l.get? i with
  | none =>
      have := List.get?_eq_none.mp hg
      omega
  | some a => rfl

theorem from_csv_row_of_lt (row : List String)
    (h : BOOK_PREFS_COLUMN_IDX < row.length) :
    UserPreference.from_csv_row row = some (rowRecord row) := by
  have h3 : FIRST_NAME_COLUMN_IDX < row.length := by
    simp only [FIRST_NAME_COLUMN_IDX, BOOK_PREFS_COLUMN_IDX] at *
    omega
  have h4 : LAST_NAME_COLUMN_IDX < row.length := by
    simp only [LAST_NAME_COLUMN_IDX, BOOK_PREFS_COLUMN_IDX] at *
    omega
  rw [UserPreference.from_csv_row, get?_eq_some_getD row _ ("") h,
    get?_eq_some_getD row _ ("") h3, get?_eq_some_getD row _ ("") h4]
  rfl

theorem loadRows_of_lt :
    ∀ data : List (List String),
      (∀ row ∈ data, BOOK_PREFS_COLUMN_IDX < row.length) →
        loadRows data = some (data.map rowRecord)
  | [], _ => rfl
  | row :: rest, h => by
      rw [loadRows, from_csv_row_of_lt row (h row (List.mem_cons_self _ _)),
        loadRows_of_lt rest fun r hr => h r (List.mem_cons_of_mem _ hr)]
      rfl

/-- C8: loading a header row plus N data rows whose designated columns are
in range yields exactly N records in row order; each record's preference
list is the row's preference cell split on commas with every token
trimmed, empty tokens included, so its length is the row's comma-token
count. -/
theorem loader_roundtrip (header : List String) (data : List (List String))
    (h : ∀ row ∈ data, BOOK_PREFS_COLUMN_IDX < row.length) :
    load_csv (header :: data) = some (data.map rowRecord)
    ∧ (data.map rowRecord).length = data.length
    ∧ ∀ row ∈ data,
        (rowRecord row).books_by_preference
            = (splitCommas (row.getD BOOK_PREFS_COLUMN_IDX (""))).map strip
          ∧ (rowRecord row).books_by_preference.length
            = (splitCommas (row.getD BOOK_PREFS_COLUMN_IDX (""))).length := by
  refine ⟨loadRows_of_lt data h, List.length_map data rowRecord, ?_⟩
  intro row _
  exact ⟨rfl, List.length_map _ _⟩

theorem loader_roundtrip_witness :
    (∀ row ∈ [["a", "b", "c", "Tyler", "Auer", "x", "A,B"]],
      BOOK_PREFS_COLUMN_IDX < row.length)
    ∧ (load_csv (["hdr"] :: [["a", "b", "c", "Tyler", "Auer", "x", "A,B"]])
          = some ([["a", "b", "c", "Tyler", "Auer", "x", "A,B"]].map rowRecord)
      ∧ ([["a", "b", "c", "Tyler", "Auer", "x", "A,B"]].map rowRecord).length
          = [["a", "b", "c", "Tyler", "Auer", "x", "A,B"]].length
      ∧ ∀ row ∈ [["a", "b", "c", "Tyler", "Auer", "x", "A,B"]],
          (rowRecord row).books_by_preference
              = (splitCommas (row.getD BOOK_PREFS_COLUMN_IDX (""))).map strip
            ∧ (rowRecord row).books_by_preference.length
              = (splitCommas (row.getD BOOK_PREFS_COLUMN_IDX (""))).length) :=
  ⟨by decide,
    loader_roundtrip ["hdr"] [["a", "b", "c", "Tyler", "Auer", "x", "A,B"]]
      (by decide)⟩

/-- C9 counterexample: the Loader does not deduplicate titles, so a row
whose preference cell repeats a title yields a record whose ranked list has
a duplicate, refuting the claimed invariant. -/
theorem loader_duplicate_titles_counterexample :
    load_csv [["hdr"], ["a", "b", "c", "Tyler", "Auer", "x", "A , A"]]
      = some [⟨"Tyler", "Auer", ["A", "A"]⟩]
    ∧ ¬ (["A", "A"] : List String).Nodup :=
  ⟨by rfl, by decide⟩

/-- C9 amended: a record produced by the Loader has a duplicate-free ranked
list provided the row's comma tokens are pairwise distinct after trimming
(the Loader itself enforces no deduplication). -/
theorem loader_nodup_of_distinct_tokens (row : List String) (u : UserPreference)
    (h : UserPreference.from_csv_row row = some u)
    (hnd : ((splitCommas (row.getD BOOK_PREFS_COLUMN_IDX (""))).map strip).Nodup) :
    u.books_by_preference.Nodup := by
  cases h6 : row.get? BOOK_PREFS_COLUMN_IDX with
  | none =>
      simp only [UserPreference.from_csv_row, h6] at h
      exact Option.noConfusion h
  | some cell =>
      cases h3 : row.get? FIRST_NAME_COLUMN_IDX with
      | none =>
          simp only [UserPreference.from_csv_row, h6, h3] at h
          exact Option.noConfusion h
      | some fn =>
          cases h4 : row.get? LAST_NAME_COLUMN_IDX with
          | none =>
              simp only [UserPreference.from_csv_row, h6, h3, h4] at h
              exact Option.noConfusion h
          | some ln =>
              simp only [UserPreference.from_csv_row, h6, h3, h4,
                Option.some.injEq] at h
              subst h
              rw [List.getD_eq_get?, h6] at hnd
              exact hnd

theorem loader_nodup_of_distinct_tokens_witness :
    (UserPreference.from_csv_row ["a", "b", "c", "Tyler", "Auer", "x", "A,B"]
        = some ⟨"Tyler", "Auer", ["A", "B"]⟩)
    ∧ (((splitCommas ((["a", "b", "c", "Tyler", "Auer", "x", "A,B"] :
        List String).getD BOOK_PREFS_COLUMN_IDX (""))).map strip).Nodup)
    ∧ (["A", "B"] : List String).Nodup :=
  ⟨by rfl, by decide,
    loader_nodup_of_distinct_tokens ["a", "b", "c", "Tyler", "Auer", "x", "A,B"]
      ⟨"Tyler", "Auer", ["A", "B"]⟩ (by rfl) (by decide)⟩

/-! ### Helper lemmas for the combination generator -/

theorem list_range_map_sum (f : ℕ → ℕ) :
    ∀ n : ℕ, ((List.range n).map f).sum = ∑ i ∈ Finset.range n, f i
  | 0 => rfl
  | n + 1 => by
      rw [List.range_succ, List.map_append, List.sum_append,
        Finset.sum_range_succ, list_range_map_sum f n]
      simp

theorem sum_range_choose_sub_one (n : ℕ) :
    (∑ i ∈ Finset.range n, n.choose (i + 1)) = 2 ^ n - 1 := by
  have h := Nat.sum_range_choose n
  rw [Finset.sum_range_succ'] at h
  simp only [Nat.choose_zero_right] at h
  omega

theorem sublist_eq_of_perm {α : Type} [DecidableEq α] :
    ∀ (l c₁ c₂ : List α), l.Nodup → c₁.Sublist l → c₂.Sublist l →
      c₁.Perm c₂ → c₁ = c₂
  | [], c₁, c₂, _, h₁, h₂, _ => by
      rw [List.sublist_nil.mp h₁, List.sublist_nil.mp h₂]
  | a :: l, c₁, c₂, hnd, h₁, h₂, hp => by
      have hnd' := List.nodup_cons.mp hnd
      rcases List.sublist_cons_iff.mp h₁ with h₁' | ⟨r₁, rfl, hr₁⟩
      · rcases List.sublist_cons_iff.mp h₂ with h₂' | ⟨r₂, rfl, hr₂⟩
        · exact sublist_eq_of_perm l c₁ c₂ hnd'.2 h₁' h₂' hp
        · exact absurd
            (h₁'.subset (hp.mem_iff.mpr (List.mem_cons_self a r₂))) hnd'.1
      · rcases List.sublist_cons_iff.mp h₂ with h₂' | ⟨r₂, rfl, hr₂⟩
        · exact absurd
            (h₂'.subset (hp.mem_iff.mp (List.mem_cons_self a r₁))) hnd'.1
        · rw [sublist_eq_of_perm l r₁ r₂ hnd'.2 hr₁ hr₂ hp.cons_inv]

/-- C3: the Combination Generator over a duplicate-free title universe
emits exactly `2 ^ |U| - 1` combos, each a non-empty subset of the
universe, with no subset emitted twice, and every non-empty subset is
emitted. -/
theorem combination_generator_enumerates_powerset (books : List String)
    (hnd : books.Nodup) :
    (combinations_for_all_book_counts books).length = 2 ^ books.length - 1
    ∧ (∀ c ∈ combinations_for_all_book_counts books, c ≠ [] ∧ c.Sublist books)
    ∧ ((combinations_for_all_book_counts books).map List.toFinset).Nodup
    ∧ (∀ c : List String, c.Sublist books → c ≠ [] →
        c ∈ combinations_for_all_book_counts books) := by
  have hmem : ∀ c, c ∈ combinations_for_all_book_counts books →
      c ≠ [] ∧ c.Sublist books := by
    intro c hc
    rcases List.mem_flatMap.mp hc with ⟨i, -, hmem⟩
    rcases List.mem_sublistsLen.mp hmem with ⟨hsub, hlen⟩
    refine ⟨?_, hsub⟩
    intro h0
    rw [h0] at hlen
    simp at hlen
  refine ⟨?_, hmem, ?_, ?_⟩
  · rw [combinations_for_all_book_counts, List.length_flatMap,
      show List.map (List.length ∘ fun i => List.sublistsLen (i + 1) books)
          (List.range books.length)
          = List.map (fun i => books.length.choose (i + 1))
            (List.range books.length)
        from List.map_congr_left fun i _ =>
          List.length_sublistsLen (i + 1) books,
      list_range_map_sum, sum_range_choose_sub_one]
  · have hres : (combinations_for_all_book_counts books).Nodup := by
      rw [combinations_for_all_book_counts, List.nodup_flatMap]
      constructor
      · intro i _
        exact List.nodup_sublistsLen _ hnd
      · apply List.Pairwise.imp ?_ (List.pairwise_lt_range _)
        intro i j hij c hci hcj
        rcases List.mem_sublistsLen.mp hci with ⟨-, hleni⟩
        rcases List.mem_sublistsLen.mp hcj with ⟨-, hlenj⟩
        omega
    apply List.Nodup.map_on ?_ hres
    intro c₁ hc₁ c₂ hc₂ hf
    have h₁ := (hmem c₁ hc₁).2
    have h₂ := (hmem c₂ hc₂).2
    exact sublist_eq_of_perm books c₁ c₂ hnd h₁ h₂
      (List.perm_of_nodup_nodup_toFinset_eq (h₁.nodup hnd) (h₂.nodup hnd) hf)
  · intro c hsub hne
    have h1 : 1 ≤ c.length := by
      cases c with
      | nil => exact absurd rfl hne
      | cons a t => simp
    have h2 : c.length ≤ books.length := hsub.length_le
    apply List.mem_flatMap.mpr
    refine ⟨c.length - 1, List.mem_range.mpr (by omega), ?_⟩
    apply List.mem_sublistsLen.mpr
    exact ⟨hsub, by omega⟩

theorem combination_generator_enumerates_powerset_witness :
    (["A", "B"] : List String).Nodup
    ∧ ((combinations_for_all_book_counts ["A", "B"]).length
          = 2 ^ (["A", "B"] : List String).length - 1
      ∧ (∀ c ∈ combinations_for_all_book_counts ["A", "B"],
          c ≠ [] ∧ c.Sublist ["A", "B"])
      ∧ ((combinations_for_all_book_counts ["A", "B"]).map List.toFinset).Nodup
      ∧ (∀ c : List String, c.Sublist ["A", "B"] → c ≠ [] →
          c ∈ combinations_for_all_book_counts ["A", "B"])) :=
  ⟨by decide, combination_generator_enumerates_powerset ["A", "B"] (by decide)⟩

/-! ### Helper lemmas for the quorum filter -/

theorem countP_not_eq {α : Type} (p : α → Bool) (l : List α) :
    l.countP (fun a => !p a) = l.length - l.countP p := by
  induction l with
  | nil => rfl
  | cons a l ih =>
      have hle := List.countP_le_length (p := p) (l := l)
      by_cases ha : p a <;> simp [List.countP_cons, ha, ih] <;> omega

theorem filter_invalid_loop :
    ∀ (cs : List ComboSummary) (a : List ComboSummary) (k : Nat),
      cs.foldl (fun acc s => if summaryValid s then (acc.1 ++ [s], acc.2)
          else (acc.1, acc.2 + 1)) (a, k)
        = (a ++ cs.filter summaryValid,
            k + cs.countP fun s => !summaryValid s)
  | [], a, k => by simp
  | s :: cs, a, k => by
      cases hs : summaryValid s with
      | true =>
          rw [List.foldl_cons, if_pos hs, filter_invalid_loop cs (a ++ [s]) k]
          simp [List.filter_cons, List.countP_cons, hs]
      | false =>
          rw [List.foldl_cons, if_neg (by simp [hs]),
            filter_invalid_loop cs a (k + 1)]
          simp only [List.filter_cons, List.countP_cons, hs, Bool.not_false,
            if_true, if_false, Prod.mk.injEq]
          refine ⟨by simp, by omega⟩

/-- C4: the Quorum Filter retains exactly the summaries in which every book
has at least `MIN_GROUP_SIZE` (= 3) supporters, preserving relative order,
and the reported diagnostic count equals the number of summaries not
retained. -/
theorem quorum_filter_spec (cs : List ComboSummary) :
    (filter_invalid_summaries cs).1 = cs.filter summaryValid
    ∧ (∀ s, s ∈ (filter_invalid_summaries cs).1 ↔
        s ∈ cs ∧ ∀ p ∈ s.book_to_user_pref, MIN_GROUP_SIZE ≤ p.2.length)
    ∧ (filter_invalid_summaries cs).2
        = cs.length - (filter_invalid_summaries cs).1.length
    ∧ MIN_GROUP_SIZE = 3 := by
  have h : filter_invalid_summaries cs
      = (cs.filter summaryValid, cs.countP fun s => !summaryValid s) := by
    rw [filter_invalid_summaries, filter_invalid_loop cs [] 0]
    simp
  refine ⟨by rw [h], ?_, ?_, rfl⟩
  · intro s
    rw [h]
    simp only [List.mem_filter, summaryValid, List.all_eq_true,
      decide_eq_true_eq]
  · rw [h]
    show cs.countP (fun s => !summaryValid s)
        = cs.length - (cs.filter summaryValid).length
    rw [countP_not_eq, List.countP_eq_length_filter]

/-! ### Helper lemmas for the ranker -/

theorem filter_orderedInsert (p : ComboSummary → Bool)
    (hp : ∀ s t, p s = true → p t = true → summaryLE s t)
    (a : ComboSummary) (l : List ComboSummary) :
    (List.orderedInsert summaryLE a l).filter p
      = if p a then a :: l.filter p else l.filter p := by
  rw [List.orderedInsert_eq_take_drop, List.filter_append]
  by_cases hpa : p a
  · rw [if_pos hpa]
    have htake : (l.takeWhile fun b => decide ¬summaryLE a b).filter p = [] := by
      rw [List.filter_eq_nil_iff]
      intro b hb
      have hnle := List.mem_takeWhile_imp hb
      simp only [decide_eq_true_eq] at hnle
      intro hpb
      exact hnle (hp a b hpa hpb)
    rw [htake, List.filter_cons, if_pos hpa, List.nil_append]
    congr 1
    conv_rhs => rw [← List.takeWhile_append_dropWhile
      (fun b => decide ¬summaryLE a b) l]
    rw [List.filter_append, htake, List.nil_append]
  · rw [if_neg hpa, List.filter_cons, if_neg hpa]
    conv_rhs => rw [← List.takeWhile_append_dropWhile
      (fun b => decide ¬summaryLE a b) l]
    rw [List.filter_append]

theorem filter_insertionSort_eq (p : ComboSummary → Bool)
    (hp : ∀ s t, p s = true → p t = true → summaryLE s t) :
    ∀ l : List ComboSummary,
      (l.insertionSort summaryLE).filter p = l.filter p
  | [] => rfl
  | a :: l => by
      rw [List.insertionSort,
        filter_orderedInsert p hp a (l.insertionSort summaryLE),
        filter_insertionSort_eq p hp l, List.filter_cons]

theorem summaryLE_iff_sqrt (s t : ComboSummary) (hs : 0 ≤ s.mean_square)
    (ht : 0 ≤ t.mean_square) :
    summaryLE s t ↔
      (s.root_mean_square < t.root_mean_square
        ∨ (s.root_mean_square = t.root_mean_square
            ∧ s.books.length ≤ t.books.length)) := by
  have hs' : (0 : ℝ) ≤ (s.mean_square : ℝ) := by exact_mod_cast hs
  have ht' : (0 : ℝ) ≤ (t.mean_square : ℝ) := by exact_mod_cast ht
  unfold summaryLE ComboSummary.root_mean_square
  constructor
  · rintro (h | ⟨h, h'⟩)
    · left
      rw [Real.sqrt_lt_sqrt_iff hs']
      exact_mod_cast h
    · exact Or.inr ⟨by rw [h], h'⟩
  · rintro (h | ⟨h, h'⟩)
    · left
      have := (Real.sqrt_lt_sqrt_iff hs').mp h
      exact_mod_cast this
    · right
      have := (Real.sqrt_inj hs' ht').mp h
      exact ⟨by exact_mod_cast this, h'⟩

/-- C5: the Ranker returns a permutation of the retained summaries that is
non-decreasing in the key (root mean square, then number of books), and the
sort is stable: summaries with equal keys keep their input order (stated as
equality of the filtered subsequences on every key value; on nonnegative
mean squares, equality of mean squares coincides with equality of root mean
squares, as the last conjunct shows). -/
theorem ranker_sorted_and_stable (cs : List ComboSummary)
    (h : ∀ s ∈ cs, 0 ≤ s.mean_square) :
    (rankSummaries cs).Perm cs
    ∧ (rankSummaries cs).Pairwise (fun s t =>
        s.root_mean_square < t.root_mean_square
          ∨ (s.root_mean_square = t.root_mean_square
              ∧ s.books.length ≤ t.books.length))
    ∧ (∀ (q : ℚ) (n : Nat),
        (rankSummaries cs).filter
            (fun s => decide (s.mean_square = q ∧ s.books.length = n))
          = cs.filter
            (fun s => decide (s.mean_square = q ∧ s.books.length = n)))
    ∧ (∀ s t : ComboSummary, 0 ≤ s.mean_square → 0 ≤ t.mean_square →
        (summaryLE s t ↔ (s.root_mean_square < t.root_mean_square
          ∨ (s.root_mean_square = t.root_mean_square
              ∧ s.books.length ≤ t.books.length)))) := by
  refine ⟨List.perm_insertionSort summaryLE cs, ?_, ?_,
    fun s t hs ht => summaryLE_iff_sqrt s t hs ht⟩
  · have hsorted : (rankSummaries cs).Pairwise summaryLE :=
      List.sorted_insertionSort summaryLE cs
    apply List.Pairwise.imp_of_mem ?_ hsorted
    intro a b ha hb hab
    have ha' := h a ((List.mem_insertionSort summaryLE).mp ha)
    have hb' := h b ((List.mem_insertionSort summaryLE).mp hb)
    exact (summaryLE_iff_sqrt a b ha' hb').mp hab
  · intro q n
    apply filter_insertionSort_eq
    intro s t hs ht
    simp only [decide_eq_true_eq] at hs ht
    exact Or.inr ⟨hs.1.trans ht.1.symm, le_of_eq (hs.2.trans ht.2.symm)⟩

theorem ranker_sorted_and_stable_witness :
    (∀ s ∈ [demoSummary], 0 ≤ s.mean_square)
    ∧ ((rankSummaries [demoSummary]).Perm [demoSummary]
      ∧ (rankSummaries [demoSummary]).Pairwise (fun s t =>
          s.root_mean_square < t.root_mean_square
            ∨ (s.root_mean_square = t.root_mean_square
                ∧ s.books.length ≤ t.books.length))
      ∧ (∀ (q : ℚ) (n : Nat),
          (rankSummaries [demoSummary]).filter
              (fun s => decide (s.mean_square = q ∧ s.books.length = n))
            = [demoSummary].filter
              (fun s => decide (s.mean_square = q ∧ s.books.length = n)))
      ∧ (∀ s t : ComboSummary, 0 ≤ s.mean_square → 0 ≤ t.mean_square →
          (summaryLE s t ↔ (s.root_mean_square < t.root_mean_square
            ∨ (s.root_mean_square = t.root_mean_square
                ∧ s.books.length ≤ t.books.length))))) :=
  ⟨by simp [demoSummary],
    ranker_sorted_and_stable [demoSummary] (by simp [demoSummary])⟩

/-- C10: every combo the Combination Generator produces from the Title
Universe of a given record list can be scored without error: construction
succeeds (so the supporter count N is at least 1 and no division by zero
occurs), and every record assigned as a supporter of a book does list that
book (so the defensive rank-lookup error is unreachable). -/
theorem pipeline_combos_score_safely (ups : List UserPreference)
    (combo : List String)
    (hc : combo ∈ combinations_for_all_book_counts (get_all_book_titles ups)) :
    (∃ s, ComboSummary.from_books_and_user_prefs combo ups = some s)
    ∧ (∀ b l, (b, l) ∈ supporterMap combo ups → ∀ u ∈ l,
        b ∈ u.books_by_preference) := by
  rcases List.mem_flatMap.mp hc with ⟨i, -, hmemi⟩
  rcases List.mem_sublistsLen.mp hmemi with ⟨hsub, hlen⟩
  have hkey : ∀ b l, (b, l) ∈ supporterMap combo ups → ∀ u ∈ l,
      b ∈ u.books_by_preference := by
    intro b l hbl u hu
    rw [supporterMap_eq] at hbl
    rcases List.mem_map.mp hbl with ⟨c, -, hc'⟩
    cases hc'
    have hfc := (List.mem_filter.mp hu).2
    simp only [decide_eq_true_eq] at hfc
    exact (firstComboBook_mem combo _ _ hfc).2
  refine ⟨?_, hkey⟩
  have hne : combo ≠ [] := by
    intro h0
    rw [h0] at hlen
    simp at hlen
  have hall : ∀ p ∈ supporterMap combo ups, ∀ u ∈ p.2,
      p.1 ∈ u.books_by_preference := by
    intro p hp u hu
    exact hkey p.1 p.2 hp u hu
  have hcr := comboRanks_of_mem _ hall
  obtain ⟨b₀, rest, hcombo⟩ := List.exists_cons_of_ne_nil hne
  have hb₀c : b₀ ∈ combo := hcombo ▸ List.mem_cons_self b₀ rest
  have hb₀u : b₀ ∈ get_all_book_titles ups := hsub.subset hb₀c
  rw [get_all_book_titles, List.mem_dedup] at hb₀u
  rcases List.mem_flatMap.mp hb₀u with ⟨u₀, hu₀, hbu₀⟩
  have hsome : ∃ b', firstComboBook combo u₀.books_by_preference = some b' := by
    cases hfc : firstComboBook combo u₀.books_by_preference with
    | none => exact absurd hb₀c ((firstComboBook_eq_none_iff _ _).mp hfc b₀ hbu₀)
    | some b' => exact ⟨b', rfl⟩
  rcases hsome with ⟨b', hb'⟩
  have hb'mem : b' ∈ combo := (firstComboBook_mem combo _ b' hb').1
  have hpair : (b', u₀) ∈ supportPairs (supporterMap combo ups) := by
    rw [supporterMap_eq]
    apply List.mem_flatMap.mpr
    refine ⟨(b', ups.filter fun u =>
      decide (firstComboBook combo u.books_by_preference = some b')), ?_, ?_⟩
    · exact List.mem_map.mpr ⟨b', hb'mem, rfl⟩
    · exact List.mem_map.mpr
        ⟨u₀, List.mem_filter.mpr ⟨hu₀, by simp [hb']⟩, rfl⟩
  have hlen0 :
      ¬ ((supportPairs (supporterMap combo ups)).map pairRank).length = 0 := by
    rw [List.length_map]
    intro h0
    rw [List.length_eq_zero] at h0
    rw [h0] at hpair
    exact absurd hpair (List.not_mem_nil _)
  rw [ComboSummary.from_books_and_user_prefs]
  simp only [post_init, hcr, if_neg hlen0]
  exact ⟨_, rfl⟩

theorem pipeline_combos_score_safely_witness :
    ((["A"] : List String) ∈
        combinations_for_all_book_counts (get_all_book_titles [demoUser]))
    ∧ ((∃ s, ComboSummary.from_books_and_user_prefs ["A"] [demoUser] = some s)
      ∧ (∀ b l, (b, l) ∈ supporterMap ["A"] [demoUser] → ∀ u ∈ l,
          b ∈ u.books_by_preference)) :=
  ⟨by decide, pipeline_combos_score_safely [demoUser] ["A"] (by decide)⟩

end BookClub
